import Mathlib

/-!
# Verification of the gotapdance endpoint-selection core

Shallow embedding of `tapdance/phantoms/phantoms.go` and the decoy-picking part
of `tapdance/assets.go` from the `rgennt/gotapdance` repository.

Modelling conventions:

* Go byte slices are `List Nat` with every entry `< 256`; `big.Int` values are
  `Nat` (all values occurring here are non-negative).
* Go's process-wide `math/rand` generator is modelled by an abstract
  deterministic generator `RandGen`: a state type together with `seed`
  (the effect of `rand.Seed`), `read` (the bytes filled in by `rand.Read`,
  which in `math/rand` never returns an error) and `intn` (`rand.Intn`).
  All phantom-selection functions thread this state explicitly, mirroring the
  mutable global generator.  Theorems are stated for an arbitrary generator,
  hence hold in particular for the actual Go algorithm.
* Fallible Go functions return `Outcome`, with `Outcome.fail` carrying the Go
  error string and `Outcome.panicOut` marking a runtime panic.
-/

namespace GoTapdance

/-- Result of a Go computation: a value, a returned `error`, or a panic. -/
inductive Outcome (α : Type) where
  | ok : α → Outcome α
  | fail : String → Outcome α
  | panicOut : Outcome α
deriving DecidableEq, Repr

/-- Big-endian bytes to natural number, as Go's `(*big.Int).SetBytes`. -/
def bytesToNat (bs : List Nat) : Nat := bs.foldl (fun a b => a * 256 + b) 0

/-- Fuel-indexed big-endian base-256 digit extraction; the fuel is an upper
bound on the value, so `natBytes` below is total. -/
def natBytesAux : Nat → Nat → List Nat
  | 0, _ => []
  | fuel+1, n => if n = 0 then [] else natBytesAux fuel (n / 256) ++ [n % 256]

/-- Minimal big-endian byte encoding of a natural number, as Go's
`(*big.Int).Bytes`: no leading zero byte, and `0` encodes to the empty
slice. -/
def natBytes (n : Nat) : List Nat := natBytesAux n n

/-! ## `encoding/binary` varint reading

Model of Go's `binary.ReadVarint` applied to `bytes.NewBuffer(seed)`:
an unsigned little-endian base-128 varint (at most 10 bytes) is read and
zigzag-decoded.  Error strings are the ones Go produces (`io.EOF`,
`io.ErrUnexpectedEOF`, and the overflow error of `encoding/binary`). -/

def overflowMsg : String := "binary: varint overflows a 64-bit integer"

/-- Model of Go's `binary.ReadUvarint` loop: `i` counts bytes consumed so
far, `s` is the current shift, `x` the accumulator (kept below `2^64` as in
Go's wrapping `uint64` arithmetic). -/
def readUvarintAux : List Nat → Nat → Nat → Nat → Except String Nat
  | bs, i, s, x =>
    if 10 ≤ i then .error overflowMsg
    else match bs with
      | [] => .error (if 0 < i then "unexpected EOF" else "EOF")
      | b :: rest =>
        if b < 128 then
          if i = 9 ∧ 1 < b then .error overflowMsg
          else .ok ((x ||| (b <<< s)) % 2 ^ 64)
        else readUvarintAux rest (i + 1) (s + 7) ((x ||| ((b % 128) <<< s)) % 2 ^ 64)

/-- Model of Go's `binary.ReadVarint`: read an unsigned varint and zigzag
decode (`x = ux >> 1`, negated via bitwise complement when `ux` is odd). -/
def readVarint (seed : List Nat) : Except String Int :=
  match readUvarintAux seed 0 0 0 with
  | .error e => .error e
  | .ok ux =>
    if ux % 2 = 1 then .ok (-(ux >>> 1 : Nat) - 1) else .ok ((ux >>> 1 : Nat) : Int)

/-! ## The `math/rand` global generator, abstractly

`phantoms.go` reseeds the process-wide `math/rand` generator (`rand.Seed`)
before every draw (`rand.Read` in `SelectAddrFromSubnet`, `rand.Intn` inside
the weighted chooser's `Pick`).  We model the generator as an abstract
deterministic machine; the Go algorithm is one instance. -/

structure RandGen where
  σ : Type
  seed : Int → σ
  read : σ → Nat → List Nat × σ
  intn : σ → Nat → Nat × σ

/-- Facts true of Go's generator: `rand.Read` fills exactly the requested
number of bytes, and `rand.Intn n` returns a value in `[0, n)`. -/
def RandGen.Valid (R : RandGen) : Prop :=
  (∀ s n, (R.read s n).1.length = n ∧ ∀ b ∈ (R.read s n).1, b < 256) ∧
  (∀ s n, 0 < n → (R.intn s n).1 < n)

/-- A trivial valid generator (all-zero bytes), used to instantiate theorems
at concrete inputs. -/
def zeroGen : RandGen where
  σ := Unit
  seed := fun _ => ()
  read := fun _ n => (List.replicate n 0, ())
  intn := fun _ _ => (0, ())

/-! ## `net` package: IPs, masks and CIDR parsing

An `IPNet` mirrors Go's `net.IPNet`: an IP byte slice plus a mask byte
slice.  The helpers below model the `net` package functions the repository
calls (`IP.To4`, `IP.To16`, `IPMask.Size`, `CIDRMask`, `IP.Mask`,
`ParseCIDR`), for the modern Go standard library (leading zeros in IPv4
octets rejected). -/

structure IPNet where
  ip : List Nat
  mask : List Nat
deriving DecidableEq, Repr

/-- The 12-byte tag of IPv4-mapped IPv6 addresses (`net.v4InV6Prefix`). -/
def v4in6 : List Nat := [0, 0, 0, 0, 0, 0, 0, 0, 0, 0, 255, 255]

/-- Model of Go's `IP.To4`: the 4-byte form of an IPv4 or IPv4-mapped
address, `none` (Go: `nil`) otherwise. -/
def to4 (ip : List Nat) : Option (List Nat) :=
  if ip.length = 4 then some ip
  else if ip.length = 16 ∧ ip.take 12 = v4in6 then some (ip.drop 12)
  else none

/-- Model of Go's `IP.To16`. -/
def to16 (ip : List Nat) : Option (List Nat) :=
  if ip.length = 4 then some (v4in6 ++ ip)
  else if ip.length = 16 then some ip
  else none

/-- Leading-ones count of one mask byte, `none` if the byte is not of the
form `1…10…0` (Go's inner loop of `simpleMaskLength`). -/
def byteOnes (b : Nat) : Option Nat :=
  if b = 255 then some 8 else if b = 254 then some 7 else if b = 252 then some 6
  else if b = 248 then some 5 else if b = 240 then some 4 else if b = 224 then some 3
  else if b = 192 then some 2 else if b = 128 then some 1 else if b = 0 then some 0
  else none

/-- Model of Go's `simpleMaskLength`: number of leading one bits if the mask
is canonical (ones followed by zeros), else `none`. -/
def maskOnes : List Nat → Option Nat
  | [] => some 0
  | b :: rest =>
    if b = 255 then (maskOnes rest).map (· + 8)
    else match byteOnes b with
      | none => none
      | some k => if rest.all (· = 0) then some k else none

/-- Model of Go's `IPMask.Size`: `(ones, bits)` for a canonical mask and
`(0, 0)` otherwise. -/
def maskSize (m : List Nat) : Nat × Nat :=
  match maskOnes m with
  | some n => (n, 8 * m.length)
  | none => (0, 0)

/-- Model of Go's `net.CIDRMask ones (8*len)`: `len` mask bytes with `ones`
leading one bits. -/
def cidrMask : Nat → Nat → List Nat
  | _, 0 => []
  | n, len+1 =>
    if 8 ≤ n then 255 :: cidrMask (n - 8) len
    else (255 - (255 >>> n)) :: cidrMask 0 len

/-- Bytewise AND of two equally long byte slices (the loop in Go's
`IP.Mask`). -/
def bytesAnd (a b : List Nat) : List Nat := List.zipWith (· &&& ·) a b

/-- One decimal IPv4 octet, per Go's `parseIPv4`/`dtoi`: nonempty, all
digits, value at most 255, no leading zero (Go 1.17+). -/
def parseOctet (f : List Char) : Option Nat :=
  if f = [] ∨ ¬ f.all Char.isDigit then none
  else if 1 < f.length ∧ f.headD '0' = '0' then none
  else
    let v := f.foldl (fun a c => a * 10 + (c.toNat - 48)) 0
    if v ≤ 255 then some v else none

/-- Model of Go's `parseIPv4` (returning the 4 octets; Go wraps them into a
16-byte IPv4-mapped address, unwrapped again by `IP.Mask`/`To4`). -/
def parseIPv4 (s : List Char) : Option (List Nat) :=
  let fields := s.splitOn '.'
  if fields.length = 4 then fields.mapM parseOctet else none

def hexVal (c : Char) : Option Nat :=
  if '0' ≤ c ∧ c ≤ '9' then some (c.toNat - 48)
  else if 'a' ≤ c ∧ c ≤ 'f' then some (c.toNat - 87)
  else if 'A' ≤ c ∧ c ≤ 'F' then some (c.toNat - 55)
  else none

/-- Model of Go's `xtoi`: leading hex number, its value and the number of
characters consumed; `none` on no digits or overflow past `0xFFFFFF`. -/
def xtoiAux : List Char → Nat → Nat → Option (Nat × Nat)
  | [], n, i => if i = 0 then none else some (n, i)
  | c :: rest, n, i =>
    match hexVal c with
    | none => if i = 0 then none else some (n, i)
    | some d =>
      let n2 := n * 16 + d
      if 0xFFFFFF ≤ n2 then none else xtoiAux rest n2 (i + 1)

def xtoi (s : List Char) : Option (Nat × Nat) := xtoiAux s 0 0

/-- The chunk loop of Go's `parseIPv6` (`for i < IPv6len`): consumes 16-bit
hex groups (or a trailing dotted IPv4 quad), tracking the byte index `i`,
the bytes written so far and the position of a `::` ellipsis.  The loop runs
at most 8 times since `i` grows by at least 2, so fuel 9 is never
exhausted.  Returns the bytes, ellipsis, index and unconsumed input. -/
def p6loop : Nat → List Char → Nat → List Nat → Option Nat →
    Option (List Nat × Option Nat × Nat × List Char)
  | 0, s, i, acc, ell => some (acc, ell, i, s)
  | fuel+1, s, i, acc, ell =>
    if 16 ≤ i then some (acc, ell, i, s)
    else match xtoi s with
      | none => none
      | some (n, c) =>
        if 0xFFFF < n then none
        else if s.getD c 'x' = '.' then
          if ell.isNone ∧ i ≠ 12 then none
          else if 16 < i + 4 then none
          else match parseIPv4 s with
            | none => none
            | some b4 => some (acc ++ b4, ell, i + 4, [])
        else
          let acc2 := acc ++ [n / 256, n % 256]
          let s2 := s.drop c
          if s2 = [] then some (acc2, ell, i + 2, [])
          else if s2.headD 'x' ≠ ':' ∨ s2.length = 1 then none
          else
            let s3 := s2.drop 1
            if s3.headD 'x' = ':' then
              if ell.isSome then none
              else if s3.drop 1 = [] then some (acc2, some (i + 2), i + 2, [])
              else p6loop fuel (s3.drop 1) (i + 2) acc2 (some (i + 2))
            else p6loop fuel s3 (i + 2) acc2 ell

/-- Post-processing of Go's `parseIPv6`: the whole string must be consumed;
a short parse is completed by expanding the ellipsis (shifting the bytes
after it to the end and zero-filling), a full parse must not contain one. -/
def p6finish : Option (List Nat × Option Nat × Nat × List Char) → Option (List Nat)
  | none => none
  | some (acc, ell, i, srem) =>
    if srem ≠ [] then none
    else if i < 16 then
      match ell with
      | none => none
      | some e => some (acc.take e ++ List.replicate (16 - i) 0 ++ acc.drop e)
    else if ell.isSome then none
    else some acc

/-- Model of Go's `parseIPv6` (zone identifiers are not modelled). -/
def parseIPv6 (s0 : List Char) : Option (List Nat) :=
  if 2 ≤ s0.length ∧ s0.headD 'x' = ':' ∧ (s0.drop 1).headD 'x' = ':' then
    let s := s0.drop 2
    if s = [] then some (List.replicate 16 0)
    else p6finish (p6loop 9 s 0 [] (some 0))
  else p6finish (p6loop 9 s0 0 [] none)

/-- Split at the first `/` (Go's `byteIndex(s, '/')` in `ParseCIDR`). -/
def splitSlash : List Char → Option (List Char × List Char)
  | [] => none
  | c :: rest =>
    if c = '/' then some ([], rest)
    else (splitSlash rest).map (fun p => (c :: p.1, p.2))

/-- The prefix-length part of a CIDR string, per Go's `dtoi` followed by the
full-consumption check in `ParseCIDR`. -/
def parseDecFull (s : List Char) : Option Nat :=
  if s = [] ∨ ¬ s.all Char.isDigit then none
  else some (s.foldl (fun a c => a * 10 + (c.toNat - 48)) 0)

/-- Model of Go's `net.ParseCIDR`, returning the `*net.IPNet` component: the
address is parsed (IPv4 gives a 4-byte network, IPv6 a 16-byte one), the
prefix length is bounds-checked, and the stored IP is the address ANDed
with the CIDR mask. -/
def goParseCIDR (s : String) : Option IPNet :=
  match splitSlash s.data with
  | none => none
  | some (addr, maskStr) =>
    match parseIPv4 addr with
    | some b4 =>
      match parseDecFull maskStr with
      | none => none
      | some n =>
        if n ≤ 32 then
          let m := cidrMask n 4
          some ⟨bytesAnd b4 m, m⟩
        else none
    | none =>
      match parseIPv6 addr with
      | none => none
      | some b16 =>
        match parseDecFull maskStr with
        | none => none
        | some n =>
          if n ≤ 128 then
            let m := cidrMask n 16
            some ⟨bytesAnd b16 m, m⟩
          else none

/-! ## `phantoms.go`: data model and group selection -/

/-- `ConjurePhantomSubnet` from `phantoms.go`.  The Go `Weight` field is a
`float32`; every `float32` value is an exact rational, so weights are
modelled as `ℚ`.  The weights appearing in configurations are non-negative
(Go's `uint(float32)` conversion is undefined for negative values). -/
structure ConjurePhantomSubnet where
  Weight : ℚ
  Subnets : List String

/-- `SubnetConfig` from `phantoms.go`. -/
structure SubnetConfig where
  WeightedSubnets : List ConjurePhantomSubnet

/-- Go's `uint(w)` conversion applied to a non-negative `float32` weight:
truncation toward zero, i.e. the floor. -/
def goUintOfWeight (q : ℚ) : Nat := q.floor.toNat

/-- Go's `maxInt` for 64-bit `int` (overflow guard in the chooser). -/
def goMaxInt : Nat := 2 ^ 63 - 1

/-- A constructed chooser of the `github.com/mroth/weightedrand` library
(v0.4.x, the two-result `NewChooser` API used by `getSubnets`): the choices
sorted by weight plus the total weight. -/
structure ChooserData where
  data : List (List String × Nat)
  max : Nat

/-- The running-total loop of `weightedrand.NewChooser`, with its overflow
guard `(maxInt - runningTotal) <= weight`; returns the total weight. -/
def chooserTotals : List (List String × Nat) → Nat → Option Nat
  | [], acc => some acc
  | c :: rest, acc =>
    if goMaxInt - acc ≤ c.2 then none else chooserTotals rest (acc + c.2)

/-- Model of `weightedrand.NewChooser`: sorts the choices by weight,
accumulates totals, and errors (modelled as `none`, Go: a `nil` chooser
plus an error that `getSubnets` discards) on overflow or when the total
weight is below 1 (`errNoValidChoices`). -/
def newChooser (choices : List (List String × Nat)) : Option ChooserData :=
  match chooserTotals (choices.insertionSort fun a b => a.2 < b.2) 0 with
  | none => none
  | some total =>
    if total < 1 then none
    else some ⟨choices.insertionSort fun a b => a.2 < b.2, total⟩

/-- The selection of `weightedrand.Chooser.Pick` given the random draw
`r = rand.Intn(max)`: Pick binary-searches the cumulative totals for
`r + 1`, which selects the first choice whose cumulative total exceeds
`r`; this linear scan computes the same choice.  The `[]` fallback is
unreachable for `r < max`. -/
def pickScan : Nat → List (List String × Nat) → List String
  | _, [] => []
  | r, c :: rest => if r < c.2 then c.1 else pickScan (r - c.2) rest

/-- Model of `(*SubnetConfig).getSubnets`.  Unweighted: concatenate all
groups' subnet lists.  Weighted: read a varint seed from the secret
(returning `nil`, i.e. an empty list, if that fails), seed the generator,
build the choices with `uint(Weight)` truncation and draw once.  When
`NewChooser` fails (total weight below 1, or overflow) the Go code discards
the error and calls `Pick` on a `nil` chooser, which panics. -/
def getSubnets (R : RandGen) (sc : SubnetConfig) (seed : List Nat) (weighted : Bool)
    (σ : R.σ) : Outcome (List String) × R.σ :=
  if weighted then
    match readVarint seed with
    | .error _ => (.ok [], σ)
    | .ok seedInt =>
      let σ1 := R.seed seedInt
      let choices := sc.WeightedSubnets.map (fun g => (g.Subnets, goUintOfWeight g.Weight))
      match newChooser choices with
      | none => (.panicOut, σ1)
      | some ch =>
        let rs := R.intn σ1 ch.max
        (.ok (pickScan rs.1 ch.data), rs.2)
  else
    (.ok (sc.WeightedSubnets.foldl (fun acc g => acc ++ g.Subnets) []), σ)

/-- The per-string loop of `parseSubnets`. -/
def parseSubnetsLoop : List String → Outcome (List IPNet)
  | [] => .ok []
  | s :: rest =>
    match goParseCIDR s with
    | none => .fail ("invalid CIDR address: " ++ s)
    | some n =>
      match parseSubnetsLoop rest with
      | .ok l => .ok (n :: l)
      | .fail e => .fail e
      | .panicOut => .panicOut

/-- Model of `parseSubnets` from `phantoms.go`. -/
def parseSubnets (strs : List String) : Outcome (List IPNet) :=
  if strs.length = 0 then .fail "parseSubnets - no subnets provided"
  else parseSubnetsLoop strs

/-! ## `phantoms.go`: address selection -/

/-- The base integer `ipBigInt` computed at the top of
`SelectAddrFromSubnet`: `SetBytes` of `To4` if IPv4(-mapped), else of
`To16`, else the zero `big.Int`. -/
def netBase (n : IPNet) : Nat :=
  match to4 n.ip with
  | some b4 => bytesToNat b4
  | none =>
    match to16 n.ip with
    | some b16 => bytesToNat b16
    | none => 0

/-- Model of `SelectAddrFromSubnet`: seed the generator from the varint read
off the secret, draw `addrLen/8` random bytes, AND them with the host mask
`0xff…ff >> bits`, add to the base address, and return `big.Int.Bytes()` of
the sum (minimal big-endian form). -/
def SelectAddrFromSubnet (R : RandGen) (seed : List Nat) (net1 : IPNet) (σ : R.σ) :
    Outcome (List Nat) × R.σ :=
  let bits := (maskSize net1.mask).1
  let addrLen := (maskSize net1.mask).2
  match readVarint seed with
  | .error e => (.fail e, σ)
  | .ok seedInt =>
    let σ1 := R.seed seedInt
    let rb := R.read σ1 (addrLen / 8)
    let maskVal := bytesToNat (List.replicate (addrLen / 8) 255) >>> bits
    (.ok (natBytes (netBase net1 + (bytesToNat rb.1 &&& maskVal))), rb.2)

/-- One `idNet` entry of `selectIPAddr`: the (exclusive-`min`,
inclusive-`max`) cumulative range assigned to a network. -/
structure IdNet where
  min : Nat
  max : Nat
  net : IPNet

/-- The range-building loop of `selectIPAddr`: each network is assigned
`min = addresses_total` before, then `addresses_total += 2^(width-ones)`
followed by `addresses_total -= 1`, and `max = addresses_total` after
(`width` is 32 when `To4` succeeds, else 128 when `To16` succeeds; Go's
negative exponent in `2^(32-ones)` yields 1, matching truncated
subtraction).  Returns the entries and the final total. -/
def buildIdNets : List IPNet → Nat → Outcome (List IdNet × Nat)
  | [], t => .ok ([], t)
  | n :: rest, t =>
    let ones := (maskSize n.mask).1
    if (to4 n.ip).isSome then
      let t2 := t + 2 ^ (32 - ones) - 1
      match buildIdNets rest t2 with
      | .ok (l, tf) => .ok (⟨t, t2, n⟩ :: l, tf)
      | .fail e => .fail e
      | .panicOut => .panicOut
    else if (to16 n.ip).isSome then
      let t2 := t + 2 ^ (128 - ones) - 1
      match buildIdNets rest t2 with
      | .ok (l, tf) => .ok (⟨t, t2, n⟩ :: l, tf)
      | .fail e => .fail e
      | .panicOut => .panicOut
    else .fail "failed to parse subnet"

/-- The range-scanning loop of `selectIPAddr`: every entry with
`max >= id && min < id` overwrites `result` with a fresh
`SelectAddrFromSubnet` draw (the Go loop does not break); an error there
aborts with the `Failed to chose IP address` wrapper. -/
def selectLoop (R : RandGen) (seed : List Nat) :
    List IdNet → Nat → Option (List Nat) → R.σ → Outcome (Option (List Nat)) × R.σ
  | [], _, res, σ => (.ok res, σ)
  | n :: rest, idv, res, σ =>
    if idv ≤ n.max ∧ n.min < idv then
      match SelectAddrFromSubnet R seed n.net σ with
      | (.ok ip, σ2) => selectLoop R seed rest idv (some ip) σ2
      | (.fail e, σ2) => (.fail ("Failed to chose IP address: " ++ e), σ2)
      | (.panicOut, σ2) => (.panicOut, σ2)
    else selectLoop R seed rest idv res σ

/-- Model of `selectIPAddr`: build cumulative ranges, fail when the total is
not positive, interpret the secret bytes as a big-endian index (reduced
modulo the total only when strictly greater), scan for the matching range,
and fail when no range matched. -/
def selectIPAddr (R : RandGen) (seed : List Nat) (subnets : List IPNet) (σ : R.σ) :
    Outcome (List Nat) × R.σ :=
  match buildIdNets subnets 0 with
  | .fail e => (.fail e, σ)
  | .panicOut => (.panicOut, σ)
  | .ok (idNets, total) =>
    if total = 0 then (.fail "No valid addresses specified", σ)
    else
      let id0 := bytesToNat seed
      let idv := if total < id0 then id0 % total else id0
      match selectLoop R seed idNets idv none σ with
      | (.ok none, σ2) => (.fail "let\x27s rewrite the phantom address selector", σ2)
      | (.ok (some ip), σ2) => (.ok ip, σ2)
      | (.fail e, σ2) => (.fail e, σ2)
      | (.panicOut, σ2) => (.panicOut, σ2)

/-- A subnet filter, as in `phantoms.go` (`SubnetFilter`): possibly-failing
pure function over the parsed subnet list. -/
def applyTransform (transform : Option (List IPNet → Outcome (List IPNet)))
    (s : List IPNet) : Outcome (List IPNet) :=
  match transform with
  | none => .ok s
  | some f => f s

/-- Model of `SelectPhantom`: group selection, CIDR parsing (errors wrapped
with `Failed to parse subnets`), optional filter, then index selection. -/
def SelectPhantom (R : RandGen) (seed : List Nat) (subnets : SubnetConfig)
    (transform : Option (List IPNet → Outcome (List IPNet))) (weighted : Bool) (σ : R.σ) :
    Outcome (List Nat) × R.σ :=
  match getSubnets R subnets seed weighted σ with
  | (.fail e, σ1) => (.fail e, σ1)
  | (.panicOut, σ1) => (.panicOut, σ1)
  | (.ok strs, σ1) =>
    match parseSubnets strs with
    | .fail e => (.fail ("Failed to parse subnets: " ++ e), σ1)
    | .panicOut => (.panicOut, σ1)
    | .ok s =>
      match applyTransform transform s with
      | .fail e => (.fail e, σ1)
      | .panicOut => (.panicOut, σ1)
      | .ok s2 => selectIPAddr R seed s2 σ1

/-! ## `assets.go`: the decoy picker `GetDecoy`

Only the state the claim touches is modelled: the decoy list held by the
assets store and the decoy records' fields.  The clamping thresholds
(`timeoutMin`, `timeoutMax`, `sendLimitMin`, `sendLimitMax`) are package
constants defined outside the provided sources and are taken as
parameters; the uniform random index produced by `getRandInt(0,
len(decoys)-1)` (also defined elsewhere in the package) is likewise a
parameter, constrained to its documented range. -/

/-- The fields of `pb.TLSDecoySpec` that `assets.go` reads or writes;
protobuf getters on the zero/absent field return the zero value. -/
structure TLSDecoySpec where
  Hostname : Option String
  Ipv4Addr : Option Nat
  Ipv6Addr : Option (List Nat)
  Timeout : Option Nat
  Tcpwin : Option Nat
deriving DecidableEq, Repr

/-- The zero `pb.TLSDecoySpec{}`. -/
def TLSDecoySpec.zero : TLSDecoySpec := ⟨none, none, none, none, none⟩

def TLSDecoySpec.GetTimeout (d : TLSDecoySpec) : Nat := d.Timeout.getD 0

def TLSDecoySpec.GetTcpwin (d : TLSDecoySpec) : Nat := d.Tcpwin.getD 0

/-- The clamping constants of the `tapdance` package. -/
structure ClampParams where
  timeoutMin : Nat
  timeoutMax : Nat
  sendLimitMin : Nat
  sendLimitMax : Nat

/-- Model of `(*assets).GetDecoy`: returns the zero record on an empty
decoy list; otherwise copies the randomly indexed record and clamps the
copy's `Timeout`/`Tcpwin` (Go assigns fresh pointers into the copied
struct, leaving the stored record untouched).  The second component is the
store's decoy list after the call. -/
def GetDecoy (P : ClampParams) (decoys : List TLSDecoySpec) (idx : Nat) :
    TLSDecoySpec × List TLSDecoySpec :=
  if decoys.length = 0 then (TLSDecoySpec.zero, decoys)
  else
    let chosen1 := decoys.getD idx TLSDecoySpec.zero
    let chosen2 :=
      if chosen1.GetTimeout < P.timeoutMin then { chosen1 with Timeout := some P.timeoutMax }
      else chosen1
    let chosen3 :=
      if chosen2.GetTcpwin < P.sendLimitMin then { chosen2 with Tcpwin := some P.sendLimitMax }
      else chosen2
    (chosen3, decoys)

/-! ## Derived notions and concrete inputs -/

/-- The host-bit mask computed by `SelectAddrFromSubnet` for a network:
`addrLen/8` bytes of `0xff`, shifted right by the prefix length. -/
def hostMaskOf (n : IPNet) : Nat :=
  bytesToNat (List.replicate ((maskSize n.mask).2 / 8) 255) >>> (maskSize n.mask).1

/-- Total weight of a choice list. -/
def sumW (l : List (List String × Nat)) : Nat := (l.map (·.2)).sum

/-- Single unweighted group `["10.0.0.0/30"]` (the concrete scenario of the
spec). -/
def phantomCfg30 : SubnetConfig := ⟨[⟨1, ["10.0.0.0/30"]⟩]⟩

/-- The parsed network `10.0.0.0/30`. -/
def net30 : IPNet := ⟨[10, 0, 0, 0], [255, 255, 255, 252]⟩

/-- Single group holding only the one-address network `10.0.0.0/32`. -/
def phantomCfg32 : SubnetConfig := ⟨[⟨1, ["10.0.0.0/32"]⟩]⟩

/-- Single group with weight `0` (total weight non-positive). -/
def zeroWeightCfg : SubnetConfig := ⟨[⟨0, ["10.0.0.0/8"]⟩]⟩

/-- The parsed network `0.0.0.0/32`. -/
def net0x32 : IPNet := ⟨[0, 0, 0, 0], [255, 255, 255, 255]⟩

/-- The parsed network `10.1.2.0/24`. -/
def net24 : IPNet := ⟨[10, 1, 2, 0], [255, 255, 255, 0]⟩

/-! # Theorems -/

/-! ## Byte-encoding lemmas -/

theorem bytesToNat_append_singleton (xs : List Nat) (b : Nat) :
    bytesToNat (xs ++ [b]) = bytesToNat xs * 256 + b := by
  simp [bytesToNat, List.foldl_append]

theorem bytesToNat_natBytesAux (fuel n : Nat) (h : n ≤ fuel) :
    bytesToNat (natBytesAux fuel n) = n := by
  induction fuel generalizing n with
  | zero => interval_cases n; simp [natBytesAux, bytesToNat]
  | succ f ih =>
    by_cases h0 : n = 0
    · simp [natBytesAux, h0, bytesToNat]
    · have hdiv : n / 256 ≤ f := by
        have : n / 256 < n := Nat.div_lt_self (Nat.pos_of_ne_zero h0) (by norm_num)
        omega
      simp only [natBytesAux, h0, if_false, bytesToNat_append_singleton, ih _ hdiv]
      omega

/-- `natBytes` round-trips through `bytesToNat`. -/
theorem bytesToNat_natBytes (n : Nat) : bytesToNat (natBytes n) = n :=
  bytesToNat_natBytesAux n n le_rfl

theorem natBytesAux_zero (fuel : Nat) : natBytesAux fuel 0 = [] := by
  cases fuel <;> simp [natBytesAux]

theorem natBytesAux_ne_nil (fuel n : Nat) (h : n ≤ fuel) (h0 : n ≠ 0) :
    natBytesAux fuel n ≠ [] := by
  cases fuel with
  | zero => omega
  | succ f => simp [natBytesAux, h0]

/-- The encoding produced by `natBytes` has no leading zero byte (in
particular, the head of a nonempty encoding is nonzero). -/
theorem natBytesAux_head (fuel n : Nat) (h : n ≤ fuel) :
    (natBytesAux fuel n).head? ≠ some 0 := by
  induction fuel generalizing n with
  | zero => interval_cases n; simp [natBytesAux]
  | succ f ih =>
    by_cases h0 : n = 0
    · simp [natBytesAux, h0]
    · simp only [natBytesAux, h0, if_false]
      by_cases hd : n / 256 = 0
      · have hn : n < 256 := by omega
        have : n % 256 = n := Nat.mod_eq_of_lt hn
        simp [hd, natBytesAux_zero, this, h0]
      · have hdiv : n / 256 ≤ f := by
          have : n / 256 < n := Nat.div_lt_self (Nat.pos_of_ne_zero h0) (by norm_num)
          omega
        have hne := natBytesAux_ne_nil f (n / 256) hdiv hd
        rw [List.head?_append_of_ne_nil _ hne]
        exact ih _ hdiv

theorem natBytes_head (n : Nat) : (natBytes n).head? ≠ some 0 :=
  natBytesAux_head n n le_rfl

theorem zeroGen_valid : zeroGen.Valid := by
  refine ⟨fun s n => ⟨by simp [zeroGen], ?_⟩, fun s n h => by simpa [zeroGen] using h⟩
  intro b hb
  simp only [zeroGen, List.eq_of_mem_replicate hb]
  norm_num

/-! ## `SelectAddrFromSubnet` characterization -/

/-- On a readable varint seed, `SelectAddrFromSubnet` returns the base
address plus the masked random draw, encoded minimally; the generator state
is fully determined by the secret. -/
theorem selectAddr_eq (R : RandGen) (seed : List Nat) (net1 : IPNet) (σ : R.σ) (k : Int)
    (hseed : readVarint seed = .ok k) :
    SelectAddrFromSubnet R seed net1 σ =
      (.ok (natBytes (netBase net1 +
          (bytesToNat (R.read (R.seed k) ((maskSize net1.mask).2 / 8)).1 &&& hostMaskOf net1))),
        (R.read (R.seed k) ((maskSize net1.mask).2 / 8)).2) := by
  unfold SelectAddrFromSubnet hostMaskOf
  rw [hseed]

theorem selectAddr_err (R : RandGen) (seed : List Nat) (net1 : IPNet) (σ : R.σ) (e : String)
    (hseed : readVarint seed = .error e) :
    SelectAddrFromSubnet R seed net1 σ = (.fail e, σ) := by
  unfold SelectAddrFromSubnet
  rw [hseed]

/-- The outcome of `SelectAddrFromSubnet` does not depend on the incoming
generator state: the generator is reseeded from the secret before any
draw. -/
theorem selectAddr_fst (R : RandGen) (seed : List Nat) (net1 : IPNet) (σa σb : R.σ) :
    (SelectAddrFromSubnet R seed net1 σa).1 = (SelectAddrFromSubnet R seed net1 σb).1 := by
  cases hseed : readVarint seed with
  | error e => rw [selectAddr_err R seed net1 σa e hseed, selectAddr_err R seed net1 σb e hseed]
  | ok k => rw [selectAddr_eq R seed net1 σa k hseed, selectAddr_eq R seed net1 σb k hseed]

/-! ## State-independence of the selection pipeline (determinism) -/

theorem selectLoop_fst (R : RandGen) (seed : List Nat) (l : List IdNet) :
    ∀ (idv : Nat) (res : Option (List Nat)) (σa σb : R.σ),
    (selectLoop R seed l idv res σa).1 = (selectLoop R seed l idv res σb).1 := by
  induction l with
  | nil => intro idv res σa σb; rfl
  | cons n rest ih =>
    intro idv res σa σb
    by_cases hc : idv ≤ n.max ∧ n.min < idv
    · have hfst := selectAddr_fst R seed n.net σa σb
      rcases ha : SelectAddrFromSubnet R seed n.net σa with ⟨oa, σa2⟩
      rcases hb : SelectAddrFromSubnet R seed n.net σb with ⟨ob, σb2⟩
      have hoab : oa = ob := by rw [ha, hb] at hfst; exact hfst
      subst hoab
      cases oa with
      | ok ip => simp only [selectLoop, if_pos hc, ha, hb]; exact ih idv (some ip) σa2 σb2
      | fail e => simp only [selectLoop, if_pos hc, ha, hb]
      | panicOut => simp only [selectLoop, if_pos hc, ha, hb]
    · simp only [selectLoop, if_neg hc]
      exact ih idv res σa σb

theorem selectIPAddr_fst (R : RandGen) (seed : List Nat) (subnets : List IPNet)
    (σa σb : R.σ) :
    (selectIPAddr R seed subnets σa).1 = (selectIPAddr R seed subnets σb).1 := by
  unfold selectIPAddr
  cases hb : buildIdNets subnets 0 with
  | fail e => rfl
  | panicOut => rfl
  | ok p =>
    rcases p with ⟨idNets, total⟩
    by_cases ht : total = 0
    · simp [ht]
    · simp only [ht, if_neg ht]
      have hfst := selectLoop_fst R seed idNets
        (if total < bytesToNat seed then bytesToNat seed % total else bytesToNat seed) none σa σb
      rcases ha : selectLoop R seed idNets
          (if total < bytesToNat seed then bytesToNat seed % total else bytesToNat seed) none σa
        with ⟨oa, σa2⟩
      rcases hb2 : selectLoop R seed idNets
          (if total < bytesToNat seed then bytesToNat seed % total else bytesToNat seed) none σb
        with ⟨ob, σb2⟩
      have hoab : oa = ob := by rw [ha, hb2] at hfst; exact hfst
      subst hoab
      cases oa with
      | ok r => cases r <;> simp [ha, hb2]
      | fail e => simp [ha, hb2]
      | panicOut => simp [ha, hb2]

theorem getSubnets_fst (R : RandGen) (sc : SubnetConfig) (seed : List Nat) (weighted : Bool)
    (σa σb : R.σ) :
    (getSubnets R sc seed weighted σa).1 = (getSubnets R sc seed weighted σb).1 := by
  cases weighted with
  | false => rfl
  | true =>
    unfold getSubnets
    cases readVarint seed with
    | error e => rfl
    | ok k => rfl

/-- C1.  Determinism: `SelectPhantom` is a pure function of the secret, the
subnet configuration, the filter and the weighting flag.  Any two
invocations — modelled as runs from arbitrary (and possibly different)
states of the process-wide generator, covering repeated calls in one
process as well as calls in different processes — produce the same outcome:
the same address, or the identical failure. -/
theorem c1_select_phantom_deterministic (R : RandGen) (seed : List Nat) (sc : SubnetConfig)
    (transform : Option (List IPNet → Outcome (List IPNet))) (weighted : Bool)
    (σa σb : R.σ) :
    (SelectPhantom R seed sc transform weighted σa).1 =
      (SelectPhantom R seed sc transform weighted σb).1 := by
  unfold SelectPhantom
  have hg := getSubnets_fst R sc seed weighted σa σb
  rcases ha : getSubnets R sc seed weighted σa with ⟨oa, σa1⟩
  rcases hb : getSubnets R sc seed weighted σb with ⟨ob, σb1⟩
  have hoab : oa = ob := by rw [ha, hb] at hg; exact hg
  subst hoab
  cases oa with
  | fail e => rfl
  | panicOut => rfl
  | ok strs =>
    dsimp only
    cases parseSubnets strs with
    | fail e => rfl
    | panicOut => rfl
    | ok s =>
      dsimp only
      cases applyTransform transform s with
      | fail e => rfl
      | panicOut => rfl
      | ok s2 => dsimp only; exact selectIPAddr_fst R seed s2 σa1 σb1

/-! ## Range containment -/

/-- Every address returned by the scan loop comes from a
`SelectAddrFromSubnet` draw on one of the scanned entries (unless it was the
incoming accumulator). -/
theorem selectLoop_ok_some (R : RandGen) (seed : List Nat) (l : List IdNet) :
    ∀ (idv : Nat) (res : Option (List Nat)) (σ σ2 : R.σ) (ip : List Nat),
    selectLoop R seed l idv res σ = (.ok (some ip), σ2) →
    res = some ip ∨ ∃ n ∈ l, ∃ σa σb : R.σ,
      SelectAddrFromSubnet R seed n.net σa = (.ok ip, σb) := by
  induction l with
  | nil =>
    intro idv res σ σ2 ip h
    simp only [selectLoop, Prod.mk.injEq, Outcome.ok.injEq] at h
    exact Or.inl h.1
  | cons n rest ih =>
    intro idv res σ σ2 ip h
    by_cases hc : idv ≤ n.max ∧ n.min < idv
    · rcases hA : SelectAddrFromSubnet R seed n.net σ with ⟨oA, σA⟩
      simp only [selectLoop, if_pos hc, hA] at h
      cases oA with
      | ok ip2 =>
        rcases ih idv (some ip2) σA σ2 ip h with hres | ⟨m, hm, σa, σb, hmm⟩
        · right
          refine ⟨n, List.mem_cons_self n rest, σ, σA, ?_⟩
          rw [hA, Option.some_inj.mp hres]
        · exact Or.inr ⟨m, List.mem_cons_of_mem n hm, σa, σb, hmm⟩
      | fail e => simp at h
      | panicOut => simp at h
    · simp only [selectLoop, if_neg hc] at h
      rcases ih idv res σ σ2 ip h with hres | ⟨m, hm, σa, σb, hmm⟩
      · exact Or.inl hres
      · exact Or.inr ⟨m, List.mem_cons_of_mem n hm, σa, σb, hmm⟩

/-- Every entry built by `buildIdNets` carries a network from the input
list. -/
theorem buildIdNets_net_mem (l : List IPNet) :
    ∀ (t : Nat) (idNets : List IdNet) (total : Nat),
    buildIdNets l t = .ok (idNets, total) → ∀ n ∈ idNets, n.net ∈ l := by
  induction l with
  | nil =>
    intro t idNets total h n hn
    simp only [buildIdNets, Outcome.ok.injEq, Prod.mk.injEq] at h
    rw [← h.1] at hn
    simp at hn
  | cons x rest ih =>
    intro t idNets total h n hn
    simp only [buildIdNets] at h
    split at h
    · split at h
      · rename_i l2 tf heq
        simp only [Outcome.ok.injEq, Prod.mk.injEq] at h
        rw [← h.1] at hn
        rcases List.mem_cons.mp hn with hn1 | hn2
        · rw [hn1]; exact List.mem_cons_self x rest
        · exact List.mem_cons_of_mem x (ih _ _ _ heq n hn2)
      · simp at h
      · simp at h
    · split at h
      · split at h
        · rename_i l2 tf heq
          simp only [Outcome.ok.injEq, Prod.mk.injEq] at h
          rw [← h.1] at hn
          rcases List.mem_cons.mp hn with hn1 | hn2
          · rw [hn1]; exact List.mem_cons_self x rest
          · exact List.mem_cons_of_mem x (ih _ _ _ heq n hn2)
        · simp at h
        · simp at h
      · simp at h

/-- A successful `selectIPAddr` returns, for one of the input networks, the
base address plus a masked value, minimally encoded. -/
theorem selectIPAddr_ok (R : RandGen) (seed : List Nat) (subnets : List IPNet) (σ σ2 : R.σ)
    (ip : List Nat) (h : selectIPAddr R seed subnets σ = (.ok ip, σ2)) :
    ∃ n ∈ subnets, ∃ x, ip = natBytes (netBase n + (x &&& hostMaskOf n)) := by
  unfold selectIPAddr at h
  split at h
  · simp at h
  · simp at h
  · rename_i idNets total hbuild
    split at h
    · simp at h
    · dsimp only at h
      split at h
      · simp at h
      · rename_i ip2 σ3 hloop
        simp only [Prod.mk.injEq, Outcome.ok.injEq] at h
        rw [h.1] at hloop
        rcases selectLoop_ok_some R seed idNets _ none σ σ3 ip hloop with hres | ⟨m, hm, σa, σb, hA⟩
        · simp at hres
        · cases hseed : readVarint seed with
          | error e =>
            rw [selectAddr_err R seed m.net σa e hseed] at hA
            simp at hA
          | ok k =>
            rw [selectAddr_eq R seed m.net σa k hseed] at hA
            simp only [Prod.mk.injEq, Outcome.ok.injEq] at hA
            exact ⟨m.net, buildIdNets_net_mem subnets 0 idNets total hbuild m hm,
              _, hA.1.symm⟩
      · simp at h
      · simp at h

/-- C2.  Range containment: whenever `SelectPhantom` succeeds, the returned
address (read as an integer) lies inside one of the candidate networks that
remain after parsing and filtering: between the network base and the base
plus the host mask. -/
theorem c2_range_containment (R : RandGen) (seed : List Nat) (sc : SubnetConfig)
    (transform : Option (List IPNet → Outcome (List IPNet))) (weighted : Bool)
    (σ σ2 : R.σ) (ip : List Nat)
    (h : SelectPhantom R seed sc transform weighted σ = (.ok ip, σ2)) :
    ∃ strs σ1, getSubnets R sc seed weighted σ = (.ok strs, σ1) ∧
    ∃ nets, parseSubnets strs = .ok nets ∧
    ∃ nets2, applyTransform transform nets = .ok nets2 ∧
    ∃ n ∈ nets2, netBase n ≤ bytesToNat ip ∧ bytesToNat ip ≤ netBase n + hostMaskOf n := by
  unfold SelectPhantom at h
  rcases hg : getSubnets R sc seed weighted σ with ⟨og, σ1⟩
  rw [hg] at h
  cases og with
  | fail e => simp at h
  | panicOut => simp at h
  | ok strs =>
    dsimp only at h
    cases hp : parseSubnets strs with
    | fail e => rw [hp] at h; simp at h
    | panicOut => rw [hp] at h; simp at h
    | ok nets =>
      rw [hp] at h
      dsimp only at h
      cases htf : applyTransform transform nets with
      | fail e => rw [htf] at h; simp at h
      | panicOut => rw [htf] at h; simp at h
      | ok nets2 =>
        rw [htf] at h
        dsimp only at h
        rcases selectIPAddr_ok R seed nets2 σ1 σ2 ip h with ⟨n, hmem, x, hip⟩
        refine ⟨strs, σ1, rfl, nets, hp, nets2, htf, n, hmem, ?_, ?_⟩
        · rw [hip, bytesToNat_natBytes]
          exact Nat.le_add_right _ _
        · rw [hip, bytesToNat_natBytes]
          exact Nat.add_le_add_left Nat.and_le_right _

/-- Witness for C2 at a concrete input: selecting from
`["10.0.0.0/30"]` with secret `[1]` under the zero generator returns
`10.0.0.0`, which lies inside the parsed `10.0.0.0/30`. -/
theorem c2_range_containment_witness :
    ∃ strs σ1, getSubnets zeroGen phantomCfg30 [1] false () = (.ok strs, σ1) ∧
    ∃ nets, parseSubnets strs = .ok nets ∧
    ∃ nets2, applyTransform none nets = .ok nets2 ∧
    ∃ n ∈ nets2, netBase n ≤ bytesToNat [10, 0, 0, 0] ∧
      bytesToNat [10, 0, 0, 0] ≤ netBase n + hostMaskOf n :=
  c2_range_containment zeroGen [1] phantomCfg30 none false () () [10, 0, 0, 0] rfl

/-! ## The concrete `10.0.0.0/30` scenario -/

theorem natBytes_base10 (k : Nat) (h : k ≤ 3) :
    natBytes (167772160 + k) = [10, 0, 0, k] := by
  interval_cases k <;> rfl

/-- C3 counterexample.  For the single unweighted group `["10.0.0.0/30"]`
the code's cumulative space has total 3 (not 4): the range loop adds
`2^(32-30)` and then subtracts one, producing the single range
`(min, max] = (0, 3]`.  Index 0 therefore matches no range: a secret
encoding index 0 makes selection fail with the defensive error instead of
returning an address, refuting the claimed index space `0..3` of size 4. -/
theorem c3_counterexample :
    buildIdNets [net30] 0 = .ok ([⟨0, 3, net30⟩], 3) ∧
    (SelectPhantom zeroGen [0] phantomCfg30 none false ()).1 =
      .fail "let\x27s rewrite the phantom address selector" := by
  exact ⟨rfl, rfl⟩

/-- C3 amended.  For the single unweighted group `["10.0.0.0/30"]` the
cumulative space built by the code has size 3 (the usable indices are
1..3), and for the secret `[1]` (encoding index 1) selection deterministically
succeeds and returns `10.0.0.k` where `k ≤ 3` is the masked pseudo-random
host value derived from the secret (the documented base + masked-random
construction: the returned address is not determined by the index), the
same on every invocation. -/
theorem c3_amended (R : RandGen) (σ : R.σ) :
    buildIdNets [net30] 0 = .ok ([⟨0, 3, net30⟩], 3) ∧
    ∃ k ≤ 3, (SelectPhantom R [1] phantomCfg30 none false σ).1 = .ok [10, 0, 0, k] ∧
      ∀ σ2 : R.σ, (SelectPhantom R [1] phantomCfg30 none false σ2).1 = .ok [10, 0, 0, k] := by
  have key : ∀ σ3 : R.σ, (SelectPhantom R [1] phantomCfg30 none false σ3).1 =
      .ok (natBytes (167772160 + (bytesToNat (R.read (R.seed (-1)) 4).1 &&& 3))) :=
    fun _ => rfl
  have hk : (bytesToNat (R.read (R.seed (-1)) 4).1 &&& 3) ≤ 3 := Nat.and_le_right
  have henc := natBytes_base10 _ hk
  exact ⟨rfl, _, hk, by rw [key σ, henc], fun σ2 => by rw [key σ2, henc]⟩

/-! ## Failing evaluations (code bugs) -/

/-- C4.  Evaluation at the failing input: for the single one-address
network `10.0.0.0/32` (and likewise any single `/32` or `/128`, whose range
size `2^(width-ones)` is 1 and is then reduced by one), the cumulative total
is 0, so `SelectPhantom` fails with `No valid addresses specified` for every
secret instead of returning the network's one address. -/
theorem c4_singleton_subnet_fails (R : RandGen) (σ : R.σ) (seed : List Nat) :
    (SelectPhantom R seed phantomCfg32 none false σ).1 =
      .fail "No valid addresses specified" := rfl

/-- C5.  Evaluation at the failing input: with candidate networks
`["10.0.0.0/30"]` (one valid network, positive total 3) and a secret whose
big-endian value is the index 0 — which is not reduced (0 is not greater
than the total) — the range check `max >= id && min < id` matches no range,
and `selectIPAddr` fails with the defensive error the spec calls
unreachable. -/
theorem c5_defensive_branch_reachable (R : RandGen) (σ : R.σ) :
    (selectIPAddr R [0] [net30] σ).1 =
      .fail "let\x27s rewrite the phantom address selector" := rfl

/-- C6.  Evaluation at the failing input: with weighted selection and a
single group of weight 0 (total weight 0), `NewChooser` fails, `getSubnets`
discards the error (`c, _ := wr.NewChooser(...)`) and calls `Pick` on the
nil chooser, so `SelectPhantom` panics instead of returning an error. -/
theorem c6_zero_weight_panics (R : RandGen) (σ : R.σ) :
    (SelectPhantom R [2] zeroWeightCfg none true σ).1 = .panicOut := rfl

/-! ## Weighted selection -/

theorem chooserTotals_sum (l : List (List String × Nat)) :
    ∀ (acc t : Nat), chooserTotals l acc = some t → t = acc + sumW l := by
  induction l with
  | nil =>
    intro acc t h
    simp only [chooserTotals, Option.some_inj] at h
    simp [sumW, ← h]
  | cons c rest ih =>
    intro acc t h
    simp only [chooserTotals] at h
    split at h
    · simp at h
    · have := ih (acc + c.2) t h
      simp only [sumW, List.map_cons, List.sum_cons] at this ⊢
      omega

/-- A scan with a draw below the total weight lands on a choice of positive
weight (a zero-weight choice can never absorb the draw). -/
theorem pickScan_mem (l : List (List String × Nat)) :
    ∀ r, r < sumW l → ∃ p ∈ l, pickScan r l = p.1 ∧ 0 < p.2 := by
  induction l with
  | nil => intro r h; simp [sumW] at h
  | cons c rest ih =>
    intro r h
    by_cases hr : r < c.2
    · exact ⟨c, List.mem_cons_self c rest, by simp [pickScan, hr], by omega⟩
    · have h2 : r - c.2 < sumW rest := by
        simp only [sumW, List.map_cons, List.sum_cons] at h ⊢
        omega
      rcases ih (r - c.2) h2 with ⟨p, hp, he, hw⟩
      exact ⟨p, List.mem_cons_of_mem c hp, by simp [pickScan, hr, he], hw⟩

/-- Weighted `getSubnets` with a readable seed: seed the generator, build
the chooser, panic on a nil chooser, else draw once and scan. -/
theorem getSubnets_weighted_eq (R : RandGen) (sc : SubnetConfig) (seed : List Nat) (σ : R.σ)
    (k : Int) (hseed : readVarint seed = .ok k) :
    getSubnets R sc seed true σ =
      match newChooser (sc.WeightedSubnets.map fun g => (g.Subnets, goUintOfWeight g.Weight)) with
      | none => (.panicOut, R.seed k)
      | some ch =>
        (.ok (pickScan (R.intn (R.seed k) ch.max).1 ch.data), (R.intn (R.seed k) ch.max).2) := by
  unfold getSubnets
  rw [hseed]
  rfl

/-- A successfully built chooser holds the weight-sorted choices, and its
total is the running total, at least 1. -/
theorem newChooser_some (choices : List (List String × Nat)) (ch : ChooserData)
    (h : newChooser choices = some ch) :
    ch.data = (choices.insertionSort fun a b => a.2 < b.2) ∧
    chooserTotals ch.data 0 = some ch.max ∧ 1 ≤ ch.max := by
  unfold newChooser at h
  rcases hct : chooserTotals (choices.insertionSort fun a b => a.2 < b.2) 0 with _ | total
  · rw [hct] at h; simp at h
  · rw [hct] at h
    dsimp only at h
    split at h
    · simp at h
    · rename_i hlt
      simp only [Option.some_inj] at h
      subst h
      exact ⟨rfl, hct, not_lt.mp hlt⟩

/-- C7.  Zero-weight exclusion: in weighted mode, whenever the seed can be
derived from the secret and `getSubnets` returns a group's subnet list, that
group has truncated weight at least 1 — in particular its weight is not 0.
(When the total weight is 0 the call panics and returns nothing.) -/
theorem c7_zero_weight_never_selected (R : RandGen) (hR : R.Valid) (sc : SubnetConfig)
    (seed : List Nat) (σ σ2 : R.σ) (k : Int) (hseed : readVarint seed = .ok k)
    (out : List String) (h : getSubnets R sc seed true σ = (.ok out, σ2)) :
    ∃ g ∈ sc.WeightedSubnets, out = g.Subnets ∧ 1 ≤ goUintOfWeight g.Weight ∧ 0 < g.Weight := by
  rw [getSubnets_weighted_eq R sc seed σ k hseed] at h
  rcases hch : newChooser (sc.WeightedSubnets.map fun g => (g.Subnets, goUintOfWeight g.Weight))
    with _ | ch
  · rw [hch] at h; simp at h
  · rw [hch] at h
    dsimp only at h
    simp only [Prod.mk.injEq, Outcome.ok.injEq] at h
    rcases newChooser_some _ ch hch with ⟨hdata, hct, hpos⟩
    have hsum := chooserTotals_sum _ 0 ch.max hct
    have hr : (R.intn (R.seed k) ch.max).1 < ch.max := hR.2 _ _ (by omega)
    have hrs : (R.intn (R.seed k) ch.max).1 < sumW ch.data := by omega
    rcases pickScan_mem ch.data _ hrs with ⟨p, hp, he, hw⟩
    have hpc : p ∈ sc.WeightedSubnets.map fun g => (g.Subnets, goUintOfWeight g.Weight) := by
      rw [hdata] at hp
      exact (List.perm_insertionSort _ _).mem_iff.mp hp
    rcases List.mem_map.mp hpc with ⟨g, hg, hfg⟩
    refine ⟨g, hg, ?_, ?_, ?_⟩
    · rw [← h.1, he, ← hfg]
    · have hpw : p.2 = goUintOfWeight g.Weight := by rw [← hfg]
      omega
    · have h1 : 1 ≤ goUintOfWeight g.Weight := by
        have hpw : p.2 = goUintOfWeight g.Weight := by rw [← hfg]
        omega
      have h2 : (1 : ℤ) ≤ Rat.floor g.Weight := by
        unfold goUintOfWeight at h1
        omega
      have h3 : ((1 : ℤ) : ℚ) ≤ g.Weight := Rat.le_floor.mp h2
      push_cast at h3
      linarith

/-- Witness for C7: with one group of weight 2 and secret `[2]`, the
weighted draw returns that group, and its weight is positive. -/
theorem c7_zero_weight_never_selected_witness :
    ∃ g ∈ (⟨[⟨2, ["10.0.0.0/8"]⟩]⟩ : SubnetConfig).WeightedSubnets,
      ["10.0.0.0/8"] = g.Subnets ∧ 1 ≤ goUintOfWeight g.Weight ∧ 0 < g.Weight :=
  c7_zero_weight_never_selected zeroGen zeroGen_valid ⟨[⟨2, ["10.0.0.0/8"]⟩]⟩ [2] () () 1 rfl
    ["10.0.0.0/8"] rfl

/-! ## The decoy picker -/

/-- C8.  Clamping is copy-only: `GetDecoy` on an empty decoy list returns
the zero record; otherwise it leaves the stored decoy list unchanged and
returns a copy of the selected record whose `Timeout` (resp. `Tcpwin`) is
replaced by the configured maximum exactly when it was below the configured
minimum, all other fields preserved. -/
theorem c8_clamping_copy_only (P : ClampParams) (decoys : List TLSDecoySpec) (idx : Nat) :
    (decoys = [] → GetDecoy P decoys idx = (TLSDecoySpec.zero, decoys)) ∧
    (GetDecoy P decoys idx).2 = decoys ∧
    (idx < decoys.length →
      ((decoys.getD idx TLSDecoySpec.zero).GetTimeout < P.timeoutMin →
        (GetDecoy P decoys idx).1.Timeout = some P.timeoutMax) ∧
      (¬ (decoys.getD idx TLSDecoySpec.zero).GetTimeout < P.timeoutMin →
        (GetDecoy P decoys idx).1.Timeout = (decoys.getD idx TLSDecoySpec.zero).Timeout) ∧
      ((decoys.getD idx TLSDecoySpec.zero).GetTcpwin < P.sendLimitMin →
        (GetDecoy P decoys idx).1.Tcpwin = some P.sendLimitMax) ∧
      (¬ (decoys.getD idx TLSDecoySpec.zero).GetTcpwin < P.sendLimitMin →
        (GetDecoy P decoys idx).1.Tcpwin = (decoys.getD idx TLSDecoySpec.zero).Tcpwin) ∧
      (GetDecoy P decoys idx).1.Hostname = (decoys.getD idx TLSDecoySpec.zero).Hostname ∧
      (GetDecoy P decoys idx).1.Ipv4Addr = (decoys.getD idx TLSDecoySpec.zero).Ipv4Addr ∧
      (GetDecoy P decoys idx).1.Ipv6Addr = (decoys.getD idx TLSDecoySpec.zero).Ipv6Addr) := by
  unfold GetDecoy
  by_cases h0 : decoys.length = 0
  · have hnil : decoys = [] := List.eq_nil_of_length_eq_zero h0
    subst hnil
    simp
  · rw [if_neg h0]
    refine ⟨fun h => absurd (by rw [h]; rfl) h0, rfl, fun hidx => ?_⟩
    simp only [TLSDecoySpec.GetTimeout, TLSDecoySpec.GetTcpwin]
    split_ifs with h1 h2 h2
    · exact ⟨fun _ => rfl, fun ha => absurd h1 ha, fun _ => rfl, fun hb => absurd h2 hb,
        rfl, rfl, rfl⟩
    · exact ⟨fun _ => rfl, fun ha => absurd h1 ha, fun hb => absurd hb h2, fun _ => rfl,
        rfl, rfl, rfl⟩
    · exact ⟨fun ha => absurd ha h1, fun _ => rfl, fun _ => rfl, fun hb => absurd h2 hb,
        rfl, rfl, rfl⟩
    · exact ⟨fun ha => absurd ha h1, fun _ => rfl, fun hb => absurd hb h2, fun _ => rfl,
        rfl, rfl, rfl⟩

/-- Witness for C8 at a concrete store: one decoy with timeout 5 below the
minimum 100 comes back clamped to 200, and the stored list is unchanged. -/
theorem c8_clamping_copy_only_witness :
    (GetDecoy ⟨100, 200, 50, 60⟩ [⟨some "h", some 1, none, some 5, some 70⟩] 0).1.Timeout =
      some 200 ∧
    (GetDecoy ⟨100, 200, 50, 60⟩ [⟨some "h", some 1, none, some 5, some 70⟩] 0).2 =
      [⟨some "h", some 1, none, some 5, some 70⟩] :=
  ⟨((c8_clamping_copy_only ⟨100, 200, 50, 60⟩ [⟨some "h", some 1, none, some 5, some 70⟩]
        0).2.2 (by decide)).1 (by decide),
    (c8_clamping_copy_only ⟨100, 200, 50, 60⟩ [⟨some "h", some 1, none, some 5, some 70⟩]
        0).2.1⟩

/-! ## Returned address width -/

/-- C9 counterexample.  For the validly parsed network `0.0.0.0/32` and the
secret `[2]` (varint readable), `SelectAddrFromSubnet` returns the empty
byte string — `big.Int.Bytes()` of the value 0 — whose length 0 is not the
full address width of 4 bytes. -/
theorem c9_counterexample :
    (SelectAddrFromSubnet zeroGen [2] net0x32 ()).1 = .ok [] ∧
    ¬ (([] : List Nat).length = (maskSize net0x32.mask).2 / 8) :=
  ⟨rfl, by decide⟩

/-- C9 amended.  On a readable varint seed, the IP value returned by
`SelectAddrFromSubnet` is the minimal big-endian encoding of base + masked
random host bits: it never has a leading zero byte, so its length equals
the full address width only when the value needs that many bytes, and
leading zero bytes of the address are dropped. -/
theorem c9_minimal_encoding (R : RandGen) (net1 : IPNet) (seed : List Nat) (σ : R.σ)
    (k : Int) (hseed : readVarint seed = .ok k) :
    ∃ ip σ2, SelectAddrFromSubnet R seed net1 σ = (.ok ip, σ2) ∧
      bytesToNat ip = netBase net1 +
        (bytesToNat (R.read (R.seed k) ((maskSize net1.mask).2 / 8)).1 &&& hostMaskOf net1) ∧
      ip.head? ≠ some 0 :=
  ⟨_, _, selectAddr_eq R seed net1 σ k hseed, bytesToNat_natBytes _, natBytes_head _⟩

/-- Witness for C9 (amended) at the network `10.1.2.0/24` and secret
`[2]`. -/
theorem c9_minimal_encoding_witness :
    ∃ ip σ2, SelectAddrFromSubnet zeroGen [2] net24 () = (.ok ip, σ2) ∧
      bytesToNat ip = netBase net24 +
        (bytesToNat (zeroGen.read (zeroGen.seed 1) ((maskSize net24.mask).2 / 8)).1 &&&
          hostMaskOf net24) ∧
      ip.head? ≠ some 0 :=
  c9_minimal_encoding zeroGen net24 [2] () 1 rfl

/-! ## Fractional weights -/

/-- C10.  Fractional-weight truncation: a group weight strictly between 0
and 1 truncates to the unsigned integer 0, and weighted `getSubnets`
behaves exactly as if that group's weight were 0. -/
theorem c10_fractional_weight_truncated (R : RandGen) (seed : List Nat) (σ : R.σ)
    (pre post : List ConjurePhantomSubnet) (g : ConjurePhantomSubnet)
    (h0 : 0 < g.Weight) (h1 : g.Weight < 1) :
    goUintOfWeight g.Weight = goUintOfWeight 0 ∧
    getSubnets R ⟨pre ++ g :: post⟩ seed true σ =
      getSubnets R ⟨pre ++ ⟨0, g.Subnets⟩ :: post⟩ seed true σ := by
  have hz : goUintOfWeight g.Weight = 0 := by
    unfold goUintOfWeight
    have hfl : Rat.floor g.Weight ≤ 0 := by
      by_contra hc
      push_neg at hc
      have h2 : (1 : ℤ) ≤ Rat.floor g.Weight := hc
      have h3 := Rat.le_floor.mp h2
      push_cast at h3
      linarith
    omega
  have hz0 : goUintOfWeight 0 = 0 := rfl
  have hmap : (pre ++ g :: post).map (fun g2 => (g2.Subnets, goUintOfWeight g2.Weight)) =
      (pre ++ ⟨0, g.Subnets⟩ :: post).map (fun g2 => (g2.Subnets, goUintOfWeight g2.Weight)) := by
    simp only [List.map_append, List.map_cons, hz, hz0]
  refine ⟨by rw [hz, hz0], ?_⟩
  unfold getSubnets
  dsimp only
  cases readVarint seed with
  | error e => rfl
  | ok k => rw [hmap]; rfl

/-- Witness for C10: a group of weight 1/2 next to a group of weight 1. -/
theorem c10_fractional_weight_truncated_witness :
    goUintOfWeight ((1 : ℚ)/2) = goUintOfWeight 0 ∧
    getSubnets zeroGen ⟨[] ++ ⟨(1 : ℚ)/2, ["10.0.0.0/8"]⟩ :: [⟨1, ["192.0.0.0/8"]⟩]⟩ [2] true () =
      getSubnets zeroGen ⟨[] ++ ⟨0, ["10.0.0.0/8"]⟩ :: [⟨1, ["192.0.0.0/8"]⟩]⟩ [2] true () :=
  c10_fractional_weight_truncated zeroGen [2] () [] [⟨1, ["192.0.0.0/8"]⟩]
    ⟨(1 : ℚ)/2, ["10.0.0.0/8"]⟩ (show (0 : ℚ) < 1/2 by norm_num) (show (1 : ℚ)/2 < 1 by norm_num)

end GoTapdance
